import Mathlib

/-!
Verification model of microperi's remote REPL reflection engine
(`microperi/microperi.py`): the serial transport session, the remote
fault detector, the value codec, the reflective proxy builder, the
version-keyed cache and the call forwarder.

Python strings are modelled as `List Char` so that index/slice
operations of the source translate directly; the helpers prefixed `py`
model the Python `str` builtins the source calls (faithful on the
ASCII inputs the protocol exchanges).
-/

/-- A Python string: a sequence of characters. -/
abbrev PyStr := List Char

/-- Python `s.startswith(pre)`. -/
def pyStartswith (s pre : PyStr) : Bool := pre.isPrefixOf s

/-- Python `s.endswith(suf)`. -/
def pyEndswith (s suf : PyStr) : Bool := suf.isSuffixOf s

/-- Characters Python `str.strip()` removes (ASCII whitespace). -/
def pyIsSpace (c : Char) : Bool :=
  c = ' ' || c = '\t' || c = '\n' || c = '\r' || c = '\x0b' || c = '\x0c'

/-- Python `s.strip()`: drop leading and trailing whitespace. -/
def pyStrip (s : PyStr) : PyStr :=
  ((s.dropWhile pyIsSpace).reverse.dropWhile pyIsSpace).reverse

/-- Worker for `pyReplace`: replace each leftmost, non-overlapping
occurrence of `oldH :: oldT` by `new`. The fuel argument (initially
the input length, which strictly bounds the recursion depth) only
makes the recursion structural; the zero case is unreachable. -/
def pyReplaceFuel (oldH : Char) (oldT new : PyStr) : Nat → PyStr → PyStr
  | _, [] => []
  | 0, s => s
  | fuel + 1, c :: rest =>
    if (oldH :: oldT).isPrefixOf (c :: rest) then
      new ++ pyReplaceFuel oldH oldT new fuel (rest.drop oldT.length)
    else
      c :: pyReplaceFuel oldH oldT new fuel rest

/-- Python `s.replace(old, new)` for the non-empty patterns the source
uses (the empty-pattern corner of `str.replace` is never exercised). -/
def pyReplace (s old new : PyStr) : PyStr :=
  match old with
  | [] => s
  | h :: t => pyReplaceFuel h t new s.length s

/-- Worker for `pySplitOn`: split on each leftmost occurrence of
`sepH :: sepT`, keeping empty fields, as Python `str.split(sep)` does.
Fuel as in `pyReplaceFuel`. -/
def pySplitFuel (sepH : Char) (sepT : PyStr) : Nat → PyStr → List PyStr
  | _, [] => [[]]
  | 0, s => [s]
  | fuel + 1, c :: rest =>
    if (sepH :: sepT).isPrefixOf (c :: rest) then
      [] :: pySplitFuel sepH sepT fuel (rest.drop sepT.length)
    else
      match pySplitFuel sepH sepT fuel rest with
      | [] => [[c]]
      | p :: ps => (c :: p) :: ps

/-- Python `s.split(sep)` with an explicit non-empty separator. -/
def pySplitOn (s sep : PyStr) : List PyStr :=
  match sep with
  | [] => [s]
  | h :: t => pySplitFuel h t s.length s

/-- Python `str.isdigit` / `str.isnumeric`: non-empty and all digits
(the builtins coincide on the ASCII repr text the device sends). -/
def pyAllDigits (s : PyStr) : Bool := !s.isEmpty && s.all Char.isDigit

/-- Python `int(s)` on an all-digit string. -/
def pyIntOfDigits (s : PyStr) : Nat :=
  s.foldl (fun n c => n * 10 + (c.toNat - 48)) 0

/-- Python `s.find(sub)`: index of the leftmost occurrence, if any. -/
def pyFindList (hay needle : PyStr) : Option Nat :=
  if needle.isPrefixOf hay then some 0
  else
    match hay with
    | [] => none
    | _ :: rest => (pyFindList rest needle).map (· + 1)

/-- The exception `handle_potential_invalid_data` raises when the
micro:bit reported a traceback: the parsed exception name and message. -/
structure RemoteFault where
  name : PyStr
  msg : PyStr
deriving DecidableEq

/-- The marker looked for at the start of output lines. -/
def tbMarker : PyStr := ("Traceback".toList)

/-- The line list `handle_potential_invalid_data` scans:
`data.replace("\r", "").strip().split("\n")`. -/
def hpidLines (data : PyStr) : List PyStr :=
  pySplitOn (pyStrip (pyReplace data ("\r".toList) [])) ("\n".toList)

/-- The `for x in range(len(lines) - 1)` loop of
`handle_potential_invalid_data`: scan every line but the last for the
marker; on a hit, parse name and message from the last line
(`lines[-1].split(" ")[0][:-1]` and `lines[-1][len(name)+2:]`). -/
def hpidCheck : List PyStr → PyStr → Except RemoteFault Unit
  | [], _ => .ok ()
  | l :: rest, last =>
    if pyStartswith l tbMarker then
      let name := ((pySplitOn last (" ".toList)).headD []).dropLast
      let msg := last.drop (name.length + 2)
      .error ⟨name, msg⟩
    else hpidCheck rest last

/-- `_microbit_connection.handle_potential_invalid_data`. -/
def handle_potential_invalid_data (data : PyStr) : Except RemoteFault Unit :=
  let lines := hpidLines data
  if lines.length ≤ 0 then .ok ()
  else hpidCheck lines.dropLast (lines.getLastD [])

/-- The prompt sentinel framing every REPL response. -/
def promptSentinel : PyStr := (">>> ".toList)

/-- One `read_until` result on the serial line: `some s` for bytes
that decode to the text `s`, `none` for bytes whose decoding raises
`UnicodeDecodeError`. -/
abbrev Chunk := Option PyStr

/-- What `_microbit_connection.readlines` hands back to Python:
`None` (fall-through after the decode-error branch), a decoded string,
or — when `decode=False` — the raw bytes. -/
inductive RLResult where
  | pynone : RLResult
  | pystr : PyStr → RLResult
  | pybytes : Chunk → RLResult
deriving DecidableEq

/-- The body of `readlines`'s `try` block once `data.decode()`
succeeded: optionally strip the sentinel and whitespace, optionally
run the fault detector, and pick the string or raw-bytes result. -/
def processDecoded (strip decode lookForExceptions : Bool) (untilSeq : PyStr)
    (dataStr : PyStr) (raw : Chunk) : Except RemoteFault RLResult :=
  if decode then
    if strip then
      let d := pyStrip (pyReplace dataStr untilSeq [])
      if lookForExceptions then
        match handle_potential_invalid_data d with
        | .ok _ => .ok (.pystr d)
        | .error f => .error f
      else .ok (.pystr d)
    else .ok (.pystr dataStr)
  else .ok (.pybytes raw)

/-- `_microbit_connection.readlines` over a queue of successive
`read_until` results (the echoed command line the source discards is
implicit; `flush_input` drains already-buffered bytes and has no
observable effect on this queue of per-read results). An exhausted
queue stands for a silent line: `read_until` then returns the empty
byte string, which decodes to `""`. On `UnicodeDecodeError` the source
recurses with default `flush_after_input`/`until_sequence` and — the
recursive result not being returned — falls out returning `None`. -/
def readlinesModel (strip decode lookForExceptions flushAfter : Bool)
    (untilSeq : PyStr) :
    List Chunk → Except (RemoteFault × List Chunk) (RLResult × List Chunk)
  | [] =>
    match processDecoded strip decode lookForExceptions untilSeq [] (some []) with
    | .ok r => .ok (r, [])
    | .error f => .error (f, [])
  | chunk :: rest =>
    match chunk with
    | some dataStr =>
      match processDecoded strip decode lookForExceptions untilSeq dataStr chunk with
      | .ok r => .ok (r, rest)
      | .error f => .error (f, rest)
    | none =>
      match readlinesModel strip decode lookForExceptions true promptSentinel rest with
      | .error e => .error e
      | .ok (_, rest') => .ok (.pynone, rest')

/-- The serial connection's state the engine mutates: the pyserial
read timeout and the queue of pending `read_until` results. -/
structure ConnState where
  timeout : Nat
  input : List Chunk
deriving DecidableEq

/-- `_microbit_connection.execute`: back up the timeout, apply the
per-call override, write the command, read the reply, and restore the
timeout. The source has no `try`/`finally`, so when `readlines`
raises, the restore on line 151 is skipped and the exception carries
the session out with the override still installed. -/
def executeModel (st : ConnState) (command : PyStr)
    (strip decode lookForExceptions : Bool) (timeout : Option Nat)
    (flushAfter : Bool) :
    Except (RemoteFault × ConnState) (RLResult × ConnState) :=
  let backupTimeout := st.timeout
  let st :=
    match timeout with
    | some t => { st with timeout := t }
    | none => st
  match readlinesModel strip decode lookForExceptions flushAfter promptSentinel st.input with
  | .error (f, rest) => .error (f, { st with input := rest })
  | .ok (r, rest) => .ok (r, { st with timeout := backupTimeout, input := rest })

/-- A value stored in a `_shim_class` attribute dictionary (or at the
top level of the module cache): the scan's proxy nodes. A `callable`
holds the remote path the `_shim_function` was bound to; the stored
`_shim_function_<name>` wrapper and the bound `call` method stored
under `<name>` both forward to that same path. -/
inductive ShimVal where
  | str : PyStr → ShimVal
  | int : Nat → ShimVal
  | callable : PyStr → ShimVal
  | cls : List (PyStr × ShimVal) → ShimVal

/-- `_shim_class._set_attr` / dict assignment: replace the value of an
existing key in place, else append (Python dicts keep insertion order). -/
def setAttr (attrs : List (PyStr × ShimVal)) (k : PyStr) (v : ShimVal) :
    List (PyStr × ShimVal) :=
  match attrs with
  | [] => [(k, v)]
  | (k', v') :: rest =>
    if k' = k then (k, v) :: rest else (k', v') :: setAttr rest k v

/-- Dictionary lookup, as `__getattr__` performs it. -/
def getAttr (attrs : List (PyStr × ShimVal)) (k : PyStr) : Option ShimVal :=
  match attrs with
  | [] => none
  | (k', v') :: rest => if k' = k then some v' else getAttr rest k

/-- `_microbit_wrapper.__getattr__` / `_shim_class.__getattr__`:
a found member, or an `AttributeError` (the error payload). -/
def wrapperGetattr (members : List (PyStr × ShimVal)) (attr : PyStr) :
    Except Unit ShimVal :=
  match getAttr members attr with
  | some v => .ok v
  | none => .error ()

/-- How `_scan_member_of` classifies a member's fetched repr `info`
(source lines 285-312): bracketed `function`/`bound_method`, any other
bracketed form (assumed class), a quoted string, an all-digit integer,
or an unrecognised value that is skipped. -/
inductive MemberKind where
  | funcKind : MemberKind
  | clsKind : MemberKind
  | strKind : PyStr → MemberKind
  | intKind : Nat → MemberKind
  | unknownKind : MemberKind
deriving DecidableEq

/-- The classification chain of `_scan_member_of` on `info`. -/
def classifyInfo (info : PyStr) : MemberKind :=
  if pyStartswith info ("<".toList) && pyEndswith info (">".toList) then
    let s := (info.drop 1).dropLast
    if s = ("function".toList) ∨ s = ("bound_method".toList) then .funcKind
    else .clsKind
  else if (pyStartswith info ("\"".toList) && pyEndswith info ("\"".toList))
      || (pyStartswith info ("'".toList) && pyEndswith info ("'".toList)) then
    .strKind ((info.drop 1).dropLast)
  else if pyAllDigits info then .intKind (pyIntOfDigits info)
  else .unknownKind

/-- One `execute` of the scan, against a device oracle `exec` mapping
a command to the decoded, sentinel-stripped reply text: the reply is
run through the fault detector (`execute`'s default
`look_for_exceptions=True`) and a detected traceback raises. -/
def execModel (exec : PyStr → PyStr) (cmd : PyStr) : Except RemoteFault PyStr :=
  match handle_potential_invalid_data (exec cmd) with
  | .ok _ => .ok (exec cmd)
  | .error f => .error f

/-- The body of `_scan_member_of`, one recursion level: list the
members of `my_path` via `dir(...)`, parse the list literal
(`[2:-2]` then split on `"', '"`), fetch each member's repr
(`[1:-1]`), classify, and assemble the `_shim_class` attribute dict.
`rec` is the recursion for nested classes. Line 283 of the source
computes `member_str = my_path + member` — without a dot separator —
and that string is what the `_shim_function` gets bound to. -/
def scanStep (exec : PyStr → PyStr)
    (rec : PyStr → Option PyStr → Except RemoteFault (List (PyStr × ShimVal)))
    (module_to_process : PyStr) (member_to_process : Option PyStr) :
    Except RemoteFault (List (PyStr × ShimVal)) := do
  let my_path :=
    match member_to_process with
    | none => module_to_process
    | some m => module_to_process ++ '.' :: m
  let dirReply ← execModel exec (("dir(".toList) ++ my_path ++ (")".toList))
  let members := pySplitOn (((dirReply.drop 2).dropLast).dropLast) ("', '".toList)
  members.foldlM
    (fun me member => do
      let member := pyStrip member
      if member.length ≤ 0 then pure me
      else do
        let reply ←
          execModel exec (("repr(".toList) ++ my_path ++ '.' :: member ++ (")".toList))
        let info := (reply.drop 1).dropLast
        let member_str := my_path ++ member
        match classifyInfo info with
        | .funcKind =>
          let me := setAttr me (("_shim_function_".toList) ++ member) (.callable member_str)
          pure (setAttr me member (.callable member_str))
        | .clsKind => do
          let sub ← rec my_path (some member)
          pure (setAttr me member (.cls sub))
        | .strKind s => pure (setAttr me member (.str s))
        | .intKind n => pure (setAttr me member (.int n))
        | .unknownKind => pure me)
    []

/-- `_microbit_wrapper._scan_member_of`. The fuel bounds the
recursion depth (Python's call stack); every claim below is evaluated
with ample fuel, so the zero case is never reached there. -/
def scan_member_of (exec : PyStr → PyStr) :
    Nat → PyStr → Option PyStr → Except RemoteFault (List (PyStr × ShimVal))
  | 0, _, _ => .ok []
  | fuel + 1, module_to_process, member_to_process =>
    scanStep exec (scan_member_of exec fuel) module_to_process member_to_process

/-- A demonstration device: one module `microbit` with a single
member `temperature` whose repr is the function marker. -/
def demoExec : PyStr → PyStr := fun cmd =>
  if cmd = ("dir(microbit)".toList) then ("['temperature']".toList)
  else if cmd = ("repr(microbit.temperature)".toList) then ("'<function>'".toList)
  else []

/-- A Python argument value handed to a `_shim_function` call: the
value kinds the codec round-trips in the claims. -/
inductive PyVal where
  | int : Int → PyVal
  | str : PyStr → PyVal

/-- One character of CPython's `repr` of a `str`, given the chosen
quote character (control characters beyond the standard short escapes
do not occur in this development's inputs and keep their identity). -/
def pyEscapeChar (q c : Char) : PyStr :=
  if c = '\\' then ['\\', '\\']
  else if c = q then ['\\', q]
  else if c = '\n' then ['\\', 'n']
  else if c = '\r' then ['\\', 'r']
  else if c = '\t' then ['\\', 't']
  else [c]

/-- CPython `repr` of a `str`: single quotes, unless the string holds
a single quote but no double quote. -/
def pyReprStrQ (s : PyStr) : PyStr :=
  let q := if s.contains '\'' && !s.contains '"' then '"' else '\''
  q :: (s.map (pyEscapeChar q)).flatten ++ [q]

/-- Python `repr` on the modelled argument values. -/
def pyRepr : PyVal → PyStr
  | .int n => (toString n).toList
  | .str s => pyReprStrQ s

/-- One of the two argument loops of `_shim_function.call`: append
each rendered argument, decrement the shared `arg_count`, and append a
comma while arguments remain. Returns the grown string and the
remaining count. -/
def argLoop : PyStr → Nat → List PyStr → PyStr × Nat
  | s, c, [] => (s, c)
  | s, c, a :: rest =>
    let s := s ++ a
    let c := c - 1
    let s := if 0 < c then s ++ [','] else s
    argLoop s c rest

/-- `_shim_function.call`'s assembled expression text: the bound path,
an opening parenthesis, the repr'd positional arguments, the
`name=value` keyword arguments, and the closing parenthesis, with the
source's countdown comma logic. -/
def shimCall (path : PyStr) (args : List PyVal)
    (kwargs : List (PyStr × PyVal)) : PyStr :=
  let s := path ++ ['(']
  let c := args.length + kwargs.length
  let (s, c) := argLoop s c (args.map pyRepr)
  let (s, _) := argLoop s c (kwargs.map (fun kv => kv.1 ++ '=' :: pyRepr kv.2))
  s ++ [')']

/-- What `_determine_variable_type` produces: a string, an integer,
or a float. The float's numeric value is outside this embedding; the
constructor records the accepted text. -/
inductive DVal where
  | str : PyStr → DVal
  | int : Nat → DVal
  | flt : PyStr → DVal
deriving DecidableEq

/-- `_determine_variable_type`. Whether `float(s)` succeeds is
supplied as the oracle `floatOk` (floating-point parsing is not
modelled); the final `raise` is the error case. -/
def _determine_variable_type (floatOk : PyStr → Bool) (s : PyStr) :
    Except Unit DVal :=
  if pyStartswith s ("'".toList) && pyEndswith s ("'".toList) then
    .ok (.str ((s.drop 1).dropLast))
  else if pyAllDigits s then .ok (.int (pyIntOfDigits s))
  else if floatOk s then .ok (.flt s)
  else .error ()

/-- How `_load_ubit_module_cache`'s banner walk can fail: the explicit
"could not determine MicroPython build version" exception, or the
`IndexError` a `lines[index]` access past the end raises. -/
inductive ExtractErr where
  | versionUnresolvable : ExtractErr
  | indexError : ExtractErr
deriving DecidableEq

/-- One `while lines[index].isnumeric(): index += 1` loop, acting on
the suffix from the current index: the check itself raises
`IndexError` once the index passes the end of the text. -/
def skipDigits : PyStr → Except ExtractErr PyStr
  | [] => .error .indexError
  | c :: rest => if c.isDigit then skipDigits rest else .ok (c :: rest)

/-- The banner marker whose end the walk starts from (13 characters,
the `index += 13`). -/
def mpMarker : PyStr := ("MicroPython v".toList)

/-- The build-identity extraction of `_load_ubit_module_cache` (source
lines 360-383): find the banner marker, skip three digit runs each
followed by one unchecked separator character, and take everything up
to the next space as the commit hash. -/
def extractHash (lines : PyStr) : Except ExtractErr PyStr :=
  match pyFindList lines mpMarker with
  | none => .error .versionUnresolvable
  | some idx => do
    let s0 := lines.drop (idx + 13)
    let s1 ← skipDigits s0
    let s2 ← skipDigits (s1.drop 1)
    let s3 ← skipDigits (s2.drop 1)
    let rest := s3.drop 1
    match rest.findIdx? (fun c => c = ' ') with
    | none => .error .versionUnresolvable
    | some sindex => .ok (rest.take sindex)

/-- The configured top-level modules (`_module_list`). -/
def _module_list : List PyStr := [("microbit".toList)]

/-- How loading can fail: banner trouble or a remote fault the scan
did not catch. -/
inductive LoadErr where
  | versionUnresolvable : LoadErr
  | indexError : LoadErr
  | fault : RemoteFault → LoadErr

/-- `_microbit_wrapper._scan_modules` against the device oracle: the
initial `execute("\x04")` (fault-checked like every default
`execute`), then per module an `import` whose failure is caught and
skips the module, then the recursive member scan whose faults
propagate. The assembled cache starts from `{"ver": hash}` and is
pickled to disk and installed as `_members`; the returned dict is both.
-/
def scan_modules (exec : PyStr → PyStr) (fuel : Nat) (hash : PyStr) :
    Except RemoteFault (List (PyStr × ShimVal)) := do
  let _ ← execModel exec ("\x04".toList)
  let cache := [(("ver".toList), ShimVal.str hash)]
  _module_list.foldlM
    (fun cache module =>
      match execModel exec (("import ".toList) ++ module) with
      | .error _ => pure cache
      | .ok _ => do
        let node ← scan_member_of exec fuel module none
        pure (setAttr cache module (.cls node)))
    cache

/-- Whether the persisted cache dict is served: it must hold a key
`"ver"` whose (string) value equals the freshly extracted hash —
comparison with a non-string pickled value is Python `==` and yields
`False`. -/
def cacheHitB (cache : List (PyStr × ShimVal)) (hash : PyStr) : Bool :=
  match getAttr cache ("ver".toList) with
  | some (ShimVal.str s) => s = hash
  | some _ => false
  | none => false

/-- What `_load_ubit_module_cache` leaves behind: the installed
`_members` dict, whether a fresh scan ran, and the cache record newly
pickled to disk (if any). -/
structure LoadResult where
  members : List (PyStr × ShimVal)
  scanned : Bool
  persisted : Option (List (PyStr × ShimVal))

/-- `_microbit_wrapper._load_ubit_module_cache`: extract the build
hash from the boot text (the joined `readlines` output after the soft
reset), then serve the pickled cache when its stored `"ver"` equals
the hash; otherwise — including when the cache file is absent or
unreadable, which the bare `except` swallows — fall back to a fresh
`_scan_modules`. `store` is the pickled record on disk, `none` when
opening or unpickling it fails. -/
def load_ubit_module_cache (bootText : PyStr)
    (store : Option (List (PyStr × ShimVal))) (exec : PyStr → PyStr)
    (fuel : Nat) : Except LoadErr LoadResult := do
  let hash ←
    (extractHash bootText).mapError (fun e =>
      match e with
      | .versionUnresolvable => LoadErr.versionUnresolvable
      | .indexError => LoadErr.indexError)
  match store with
  | some cache =>
    if cacheHitB cache hash then pure ⟨cache, false, none⟩
    else do
      let c ← (scan_modules exec fuel hash).mapError LoadErr.fault
      pure ⟨c, true, some c⟩
  | none => do
    let c ← (scan_modules exec fuel hash).mapError LoadErr.fault
    pure ⟨c, true, some c⟩

/-- Comma-join of rendered arguments, the shape `_shim_function.call`'s
countdown loops produce. -/
def commaJoin : List PyStr → PyStr
  | [] => []
  | [p] => p
  | p :: q :: rest => p ++ ',' :: commaJoin (q :: rest)

/-- What one pass of `argLoop` appends when `k` arguments are still to
come after this batch: every element followed by a comma except a
globally last one. -/
def joinTrail : List PyStr → Nat → PyStr
  | [], _ => []
  | p :: rest, k => p ++ (if 0 < rest.length + k then [','] else []) ++ joinTrail rest k

/-- Characters whose CPython `repr` inside a quoted string is the
character itself (no escape, no quote-choice interference). -/
def plainChar (c : Char) : Bool :=
  !(c = '\\' || c = '\'' || c = '"' || c = '\n' || c = '\r' || c = '\t')

/-- A device oracle that answers every command with empty output. -/
def silentExec : PyStr → PyStr := fun _ => []

example :
    handle_potential_invalid_data
      (("Traceback (most recent call last):\nboom\nValueError: bad input").toList)
      = .error ⟨("ValueError".toList), ("bad input".toList)⟩ := by rfl

example :
    handle_potential_invalid_data (("Traceback only line".toList)) = .ok () := by
  rfl

example :
    executeModel ⟨1, [some (("5\n>>> ").toList)]⟩ (("repr(x)").toList)
      true true true (some 7) true
      = .ok (.pystr (("5").toList), ⟨1, []⟩) := by rfl

example :
    executeModel
      ⟨1, [some (("Traceback (most recent call last):\n  boom\nValueError: bad input\n>>> ").toList)]⟩
      (("repr(x)").toList) true true true (some 5) true
      = .error (⟨("ValueError".toList), ("bad input".toList)⟩, ⟨5, []⟩) := by rfl

example :
    scan_member_of demoExec 2 ("microbit".toList) none
      = .ok [(("_shim_function_temperature".toList), .callable ("microbittemperature".toList)),
             (("temperature".toList), .callable ("microbittemperature".toList))] := by rfl

example :
    shimCall ("microbit.display.scroll".toList)
      [.str ("Hi".toList), .int 100] []
      = ("microbit.display.scroll('Hi',100)".toList) := by rfl

example :
    shimCall ("f".toList) [.int 1] [(("x".toList), .int 2), (("y".toList), .int 3)]
      = ("f(1,x=2,y=3)".toList) := by rfl

example :
    extractHash (("MicroPython v1.9.2-34-gd64154c73 on 2017-09-01".toList))
      = .ok ("34-gd64154c73".toList) := by rfl

example : extractHash (("MicroPython vabc def".toList)) = .ok [] := by rfl

theorem argLoop_eq (ps : List PyStr) (s : PyStr) (k : Nat) :
    argLoop s (ps.length + k) ps = (s ++ joinTrail ps k, k) := by
  induction ps generalizing s with
  | nil => simp [argLoop, joinTrail]
  | cons p rest ih =>
    have hc : (p :: rest).length + k - 1 = rest.length + k := by
      simp [List.length_cons]
    simp only [argLoop, hc]
    by_cases h : 0 < rest.length + k
    · rw [if_pos h, ih]
      simp only [joinTrail, if_pos h]
      simp [List.append_assoc]
    · rw [if_neg h, ih]
      simp only [joinTrail, if_neg h]
      simp [List.append_assoc]

theorem commaJoin_cons (p : PyStr) (rest : List PyStr) (h : rest ≠ []) :
    commaJoin (p :: rest) = p ++ ',' :: commaJoin rest := by
  cases rest with
  | nil => exact absurd rfl h
  | cons q r => rfl

theorem joinTrail_zero (ps : List PyStr) : joinTrail ps 0 = commaJoin ps := by
  induction ps with
  | nil => rfl
  | cons p rest ih =>
    cases rest with
    | nil => simp [joinTrail, commaJoin]
    | cons q r =>
      rw [commaJoin_cons p (q :: r) (by simp)]
      simp only [joinTrail] at ih ⊢
      rw [ih]
      have hpos : 0 < (q :: r).length + 0 := by simp
      rw [if_pos hpos]
      simp

theorem joinTrail_append (ps qs : List PyStr) (hqs : qs ≠ []) :
    joinTrail ps qs.length ++ commaJoin qs = commaJoin (ps ++ qs) := by
  induction ps with
  | nil => simp [joinTrail]
  | cons p rest ih =>
    have hpos : 0 < rest.length + qs.length := by
      cases qs with
      | nil => exact absurd rfl hqs
      | cons a b => simp
    simp only [joinTrail, if_pos hpos]
    have hne : rest ++ qs ≠ [] := by
      cases qs with
      | nil => exact absurd rfl hqs
      | cons a b => simp
    rw [List.cons_append, commaJoin_cons p (rest ++ qs) hne, ← ih]
    simp [List.append_assoc]

/-- C5 (amended): every invocation of a `_shim_function` produces the
bound path, then the parenthesised comma-join of the repr'd positional
arguments followed by the `name=value` keyword arguments; the
`("Hi", 100)` example yields `microbit.display.scroll('Hi',100)` —
with single quotes, as Python `repr` renders strings. -/
theorem shim_call_spec :
    (∀ (path : PyStr) (args : List PyVal) (kwargs : List (PyStr × PyVal)),
      shimCall path args kwargs =
        path ++ '(' ::
          (commaJoin (args.map pyRepr ++
              kwargs.map (fun kv => kv.1 ++ '=' :: pyRepr kv.2)) ++ [')'])) ∧
    shimCall (("microbit.display.scroll").toList) [.str (("Hi").toList), .int 100] []
      = (("microbit.display.scroll('Hi',100)").toList) := by
  constructor
  · intro path args kwargs
    have hA : args.length + kwargs.length = (args.map pyRepr).length + kwargs.length := by
      simp
    simp only [shimCall, hA, argLoop_eq]
    have hK : kwargs.length =
        (kwargs.map (fun kv => kv.1 ++ '=' :: pyRepr kv.2)).length + 0 := by
      simp
    rw [hK, argLoop_eq]
    cases hkw : kwargs.map (fun kv => kv.1 ++ '=' :: pyRepr kv.2) with
    | nil =>
      have : kwargs.length = 0 := by
        have := congrArg List.length hkw
        simpa using this
      simp [joinTrail, this, joinTrail_zero, List.append_assoc]
    | cons q qs =>
      have hne : q :: qs ≠ [] := by simp
      simp only [Nat.add_zero]
      rw [← joinTrail_append (args.map pyRepr) (q :: qs) hne, joinTrail_zero]
      simp [List.append_assoc]
  · rfl

/-- C5 counterexample: the claimed outgoing text double-quotes the
string argument, but `repr` single-quotes it, so the produced text is
`microbit.display.scroll('Hi',100)` and differs from the claimed
`microbit.display.scroll("Hi",100)`. -/
theorem shim_call_counterexample :
    shimCall (("microbit.display.scroll").toList) [.str (("Hi").toList), .int 100] []
      = (("microbit.display.scroll('Hi',100)").toList)
    ∧ shimCall (("microbit.display.scroll").toList) [.str (("Hi").toList), .int 100] []
      ≠ (("microbit.display.scroll(\"Hi\",100)").toList) := by
  refine ⟨rfl, ?_⟩
  decide

/-- C1 (amended): `execute` restores the session's prior timeout when
it returns normally; but when `readlines` raises — e.g. the Remote
Fault Detector found a traceback in the reply — the source skips the
restore on line 151 (there is no `try`/`finally`), so the per-call
override, if any, is still installed when the exception reaches the
caller. -/
theorem execute_timeout_spec (st : ConnState) (cmd : PyStr)
    (strip decode lfe fa : Bool) (t : Option Nat) :
    (∀ r st', executeModel st cmd strip decode lfe t fa = .ok (r, st') →
      st'.timeout = st.timeout) ∧
    (∀ f st', executeModel st cmd strip decode lfe t fa = .error (f, st') →
      st'.timeout = t.getD st.timeout) := by
  constructor
  · intro r st' h
    cases t with
    | none =>
      cases hr : readlinesModel strip decode lfe fa promptSentinel st.input with
      | error e =>
        obtain ⟨f0, rest0⟩ := e
        simp [executeModel, hr] at h
      | ok p =>
        obtain ⟨r0, rest0⟩ := p
        simp [executeModel, hr] at h
        rw [← h.2]
    | some v =>
      cases hr : readlinesModel strip decode lfe fa promptSentinel st.input with
      | error e =>
        obtain ⟨f0, rest0⟩ := e
        simp [executeModel, hr] at h
      | ok p =>
        obtain ⟨r0, rest0⟩ := p
        simp [executeModel, hr] at h
        rw [← h.2]
  · intro f st' h
    cases t with
    | none =>
      cases hr : readlinesModel strip decode lfe fa promptSentinel st.input with
      | error e =>
        obtain ⟨f0, rest0⟩ := e
        simp [executeModel, hr] at h
        rw [← h.2]
        rfl
      | ok p =>
        obtain ⟨r0, rest0⟩ := p
        simp [executeModel, hr] at h
    | some v =>
      cases hr : readlinesModel strip decode lfe fa promptSentinel st.input with
      | error e =>
        obtain ⟨f0, rest0⟩ := e
        simp [executeModel, hr] at h
        rw [← h.2]
        rfl
      | ok p =>
        obtain ⟨r0, rest0⟩ := p
        simp [executeModel, hr] at h

/-- C1 witness: a normal `execute` with a temporary timeout override 7
over a session whose timeout is 1 comes back with timeout 1. -/
theorem execute_timeout_witness :
    (⟨1, []⟩ : ConnState).timeout
      = (⟨1, [some (("5\n>>> ").toList)]⟩ : ConnState).timeout :=
  (execute_timeout_spec ⟨1, [some (("5\n>>> ").toList)]⟩ (("repr(x)").toList)
      true true true true (some 7)).1 (.pystr (("5").toList)) ⟨1, []⟩ rfl

/-- C1 counterexample: with prior timeout 1 and override 5, a reply
carrying a remote traceback makes `execute` raise, and the session is
left with timeout 5, not the prior 1 — the claim's "also when the call
raises" fails on the code. -/
theorem execute_timeout_counterexample :
    executeModel
      ⟨1, [some (("Traceback (most recent call last):\n  boom\nValueError: bad input\n>>> ").toList)]⟩
      (("repr(x)").toList) true true true (some 5) true
      = .error (⟨("ValueError".toList), ("bad input".toList)⟩, ⟨5, []⟩)
    ∧ (5 : Nat) ≠ 1 := ⟨rfl, by decide⟩

/-- C10: when the first read's bytes fail to decode, `readlines`
either propagates an exception raised by the recursive retry or — the
retry's value never being returned — yields Python `None`, and
`execute` then hands that `None` to its caller. -/
theorem readlines_none_spec (strip decode lfe fa : Bool) (rest : List Chunk)
    (t : Nat) (cmd : PyStr) (tOv : Option Nat) :
    ((∃ e, readlinesModel strip decode lfe fa promptSentinel (none :: rest) = .error e) ∨
      (∃ rest', readlinesModel strip decode lfe fa promptSentinel (none :: rest)
        = .ok (.pynone, rest'))) ∧
    ((∃ e, executeModel ⟨t, none :: rest⟩ cmd strip decode lfe tOv fa = .error e) ∨
      (∃ st', executeModel ⟨t, none :: rest⟩ cmd strip decode lfe tOv fa
        = .ok (.pynone, st'))) := by
  have hmain :
      (∃ e, readlinesModel strip decode lfe fa promptSentinel (none :: rest) = .error e) ∨
        (∃ rest', readlinesModel strip decode lfe fa promptSentinel (none :: rest)
          = .ok (.pynone, rest')) := by
    cases hr : readlinesModel strip decode lfe true promptSentinel rest with
    | error e =>
      left
      exact ⟨e, by simp [readlinesModel, hr]⟩
    | ok p =>
      right
      exact ⟨p.2, by simp [readlinesModel, hr]⟩
  refine ⟨hmain, ?_⟩
  rcases hmain with ⟨⟨f0, rest0⟩, he⟩ | ⟨rest', hok⟩
  · cases tOv with
    | none => exact .inl ⟨(f0, ⟨t, rest0⟩), by simp [executeModel, he]⟩
    | some v => exact .inl ⟨(f0, ⟨v, rest0⟩), by simp [executeModel, he]⟩
  · cases tOv with
    | none => exact .inr ⟨⟨t, rest'⟩, by simp [executeModel, hok]⟩
    | some v => exact .inr ⟨⟨t, rest'⟩, by simp [executeModel, hok]⟩

/-- C6 evaluated at the failing input: the first read is undecodable
and the next read decodes to `42`; the lone-chunk run shows the retry
would have produced the string `"42"`, yet the two-chunk run returns
`None` — the recursion's value is dropped (no `return` before the
recursive `self.readlines(...)`). The four-chunk run consumes three
undecodable reads before the good one, showing the retrying is
unbounded recursion, not a single bounded retry. -/
theorem readlines_retry_eval :
    readlinesModel true true true true promptSentinel
      [none, some (("42\n>>> ").toList)] = .ok (.pynone, []) ∧
    readlinesModel true true true true promptSentinel
      [some (("42\n>>> ").toList)] = .ok (.pystr ("42".toList), []) ∧
    readlinesModel true true true true promptSentinel
      [none, none, none, some (("42\n>>> ").toList)] = .ok (.pynone, []) :=
  ⟨rfl, rfl, rfl⟩

theorem pySplitFuel_ne_nil (h : Char) (t : PyStr) (fuel : Nat) (s : PyStr) :
    pySplitFuel h t fuel s ≠ [] := by
  match fuel, s with
  | _, [] => simp [pySplitFuel]
  | 0, c :: cs => simp [pySplitFuel]
  | f + 1, c :: cs =>
    simp only [pySplitFuel]
    by_cases hp : (h :: t).isPrefixOf (c :: cs) = true
    · simp [hp]
    · simp only [if_neg hp]
      cases hq : pySplitFuel h t f cs with
      | nil => simp
      | cons p ps => simp

theorem pySplitFuel_head_space :
    ∀ (pre : PyStr) (fuel : Nat) (r : PyStr),
      (∀ c ∈ pre, c ≠ ' ') → pre.length < fuel →
      (pySplitFuel ' ' [] fuel (pre ++ ' ' :: r)).headD [] = pre := by
  intro pre
  induction pre with
  | nil =>
    intro fuel r _ hf
    cases fuel with
    | zero => omega
    | succ f =>
      simp only [List.nil_append, pySplitFuel]
      rw [if_pos (by simp [List.isPrefixOf])]
      rfl
  | cons c pre ih =>
    intro fuel r hpre hf
    cases fuel with
    | zero => omega
    | succ f =>
      have hc : c ≠ ' ' := hpre c (by simp)
      simp only [List.cons_append, pySplitFuel]
      rw [if_neg (by simp [List.isPrefixOf]; intro hcc; exact absurd hcc.symm hc)]
      have hrec := ih f r (fun x hx => hpre x (by simp [hx])) (by simp at hf ⊢; omega)
      cases hq : pySplitFuel ' ' [] f (pre ++ ' ' :: r) with
      | nil => exact absurd hq (pySplitFuel_ne_nil _ _ _ _)
      | cons p ps =>
        rw [hq] at hrec
        simp only [List.headD_cons] at hrec
        simp [hrec]

theorem hpidCheck_ok_iff (ls : List PyStr) (last : PyStr) :
    hpidCheck ls last = .ok () ↔ ∀ l ∈ ls, pyStartswith l tbMarker = false := by
  induction ls with
  | nil => simp [hpidCheck]
  | cons l rest ih =>
    by_cases hl : pyStartswith l tbMarker = true
    · simp [hpidCheck, hl]
    · simp only [Bool.not_eq_true] at hl
      simp [hpidCheck, hl, ih]

theorem hpidCheck_error (ls : List PyStr) (last : PyStr)
    (h : ∃ l ∈ ls, pyStartswith l tbMarker = true) :
    hpidCheck ls last =
      .error ⟨((pySplitOn last (" ".toList)).headD []).dropLast,
        last.drop ((((pySplitOn last (" ".toList)).headD []).dropLast).length + 2)⟩ := by
  induction ls with
  | nil => simp at h
  | cons l rest ih =>
    by_cases hl : pyStartswith l tbMarker = true
    · simp [hpidCheck, hl]
    · rcases h with ⟨x, hx, hsx⟩
      rcases List.mem_cons.mp hx with hx | hx
      · rw [hx] at hsx
        exact absurd hsx hl
      · simp only [Bool.not_eq_true] at hl
        simp only [hpidCheck, hl, Bool.false_eq_true, if_false]
        exact ih ⟨x, hx, hsx⟩

/-- C3 (amended): the fault check raises exactly when some line other
than the last of the CR-stripped, whitespace-trimmed text begins with
the marker "Traceback" (the `range(len(lines) - 1)` loop never tests
the final line); when it raises and the final line has the shape
`Name: message` with a space-free name, the fault carries that name
and message. -/
theorem hpid_spec (data : PyStr) :
    (handle_potential_invalid_data data = .ok () ↔
      ∀ l ∈ (hpidLines data).dropLast, pyStartswith l tbMarker = false) ∧
    (∀ name msg : PyStr,
      (∃ l ∈ (hpidLines data).dropLast, pyStartswith l tbMarker = true) →
      (hpidLines data).getLastD [] = name ++ ':' :: ' ' :: msg →
      (∀ c ∈ name, c ≠ ' ') →
      handle_potential_invalid_data data = .error ⟨name, msg⟩) := by
  constructor
  · by_cases hempty : (hpidLines data).length ≤ 0
    · have hnil : hpidLines data = [] := List.length_eq_zero.mp (by omega)
      simp [handle_potential_invalid_data, hnil, hpidCheck]
    · simp only [handle_potential_invalid_data, if_neg hempty]
      exact hpidCheck_ok_iff _ _
  · intro name msg hex hlast hname
    by_cases hempty : (hpidLines data).length ≤ 0
    · have hnil : hpidLines data = [] := List.length_eq_zero.mp (by omega)
      rw [hnil] at hex
      simp at hex
    · simp only [handle_potential_invalid_data, if_neg hempty]
      rw [hpidCheck_error _ _ hex, hlast]
      have hshape : name ++ ':' :: ' ' :: msg = (name ++ [':']) ++ ' ' :: msg := by
        simp
      have hprec : ∀ c ∈ name ++ [':'], c ≠ ' ' := by
        intro c hc
        rcases List.mem_append.mp hc with hc | hc
        · exact hname c hc
        · simp at hc
          rw [hc]
          decide
      have hflen : (name ++ [':']).length < (name ++ ':' :: ' ' :: msg).length := by
        simp
      have hhead :
          (pySplitOn (name ++ ':' :: ' ' :: msg) (" ".toList)).headD [] = name ++ [':'] := by
        show (pySplitFuel ' ' [] (name ++ ':' :: ' ' :: msg).length
          (name ++ ':' :: ' ' :: msg)).headD [] = name ++ [':']
        rw [hshape]
        exact pySplitFuel_head_space (name ++ [':'])
          ((name ++ [':']) ++ ' ' :: msg).length msg hprec (by simp)
      rw [hhead, List.dropLast_concat]
      have hdrop : (name ++ ':' :: ' ' :: msg).drop (name.length + 2) = msg := by
        have h2 : name ++ ':' :: ' ' :: msg = (name ++ [':', ' ']) ++ msg := by
          simp
        rw [h2, show name.length + 2 = (name ++ [':', ' ']).length by simp]
        exact List.drop_left _ _
      rw [hdrop]

/-- C3 counterexample: a text whose single line starts with
"Traceback" — the claim's iff says `check` must raise, but the source
loop stops before the last line and the call is a no-op. -/
theorem hpid_counterexample :
    handle_potential_invalid_data (("Traceback (most recent call last):").toList)
      = .ok ()
    ∧ hpidLines (("Traceback (most recent call last):").toList)
      = [("Traceback (most recent call last):").toList]
    ∧ pyStartswith (("Traceback (most recent call last):").toList) tbMarker = true :=
  ⟨rfl, rfl, by decide⟩

/-- C3 witness: the spec's own example raises with name `ValueError`
and message `bad input`. -/
theorem hpid_spec_witness :
    handle_potential_invalid_data
      (("Traceback (most recent call last):\nboom\nValueError: bad input").toList)
      = .error ⟨("ValueError".toList), ("bad input".toList)⟩ :=
  (hpid_spec (("Traceback (most recent call last):\nboom\nValueError: bad input").toList)).2
    ("ValueError".toList) ("bad input".toList) (by decide) (by decide) (by decide)

theorem plain_not_mem_quote (s : PyStr) (hplain : ∀ c ∈ s, plainChar c = true) :
    s.contains '\'' = false ∧ s.contains '"' = false := by
  constructor <;>
  · show List.elem _ _ = false
    rw [List.elem_eq_mem, decide_eq_false_iff_not]
    intro hmem
    exact absurd (hplain _ hmem) (by decide)

theorem pyEscapeChar_plain (c : Char) (h : plainChar c = true) :
    pyEscapeChar '\'' c = [c] := by
  simp only [plainChar, Bool.not_eq_eq_eq_not, Bool.not_true, Bool.or_eq_false_iff,
    decide_eq_false_iff_not] at h
  obtain ⟨⟨⟨⟨⟨h1, h2⟩, h3⟩, h4⟩, h5⟩, h6⟩ := h
  simp [pyEscapeChar, h1, h2, h4, h5, h6]

theorem flatten_escape_plain (s : PyStr) (h : ∀ c ∈ s, plainChar c = true) :
    (s.map (pyEscapeChar '\'')).flatten = s := by
  induction s with
  | nil => rfl
  | cons c cs ih =>
    simp only [List.map_cons, List.flatten_cons]
    rw [pyEscapeChar_plain c (h c (by simp)), ih (fun x hx => h x (by simp [hx]))]
    rfl

/-- C4 (amended): a quoted repr — single- or double-quoted — is
classified by the scan as a string and decoded to the payload with the
quotes removed (`_determine_variable_type` itself catches only the
single-quoted form); encoding a plain-character payload renders it
single-quoted, so decode/encode round-trips to the same quoted form
for single-quoted input but turns double-quoted input into its
single-quoted spelling. -/
theorem decode_encode_spec (s : PyStr) (hplain : ∀ c ∈ s, plainChar c = true) :
    classifyInfo ('\'' :: s ++ ['\'']) = .strKind s ∧
    classifyInfo ('"' :: s ++ ['"']) = .strKind s ∧
    pyReprStrQ s = '\'' :: s ++ ['\''] ∧
    (∀ floatOk, _determine_variable_type floatOk ('\'' :: s ++ ['\''])
      = .ok (.str s)) := by
  have hesq : pyEndswith ('\'' :: s ++ ['\'']) (("'").toList) = true := by
    simp only [pyEndswith, List.isSuffixOf, List.reverse_cons, List.reverse_append,
      List.reverse_nil, List.nil_append, List.cons_append, List.isPrefixOf, Bool.and_true]
    decide
  have hedq : pyEndswith ('"' :: s ++ ['"']) (("\"").toList) = true := by
    simp only [pyEndswith, List.isSuffixOf, List.reverse_cons, List.reverse_append,
      List.reverse_nil, List.nil_append, List.cons_append, List.isPrefixOf, Bool.and_true]
    decide
  have hslt : pyStartswith ('\'' :: s ++ ['\'']) (("<").toList) = false := by
    simp only [pyStartswith, List.isPrefixOf, Bool.and_true]
    decide
  have hdlt : pyStartswith ('"' :: s ++ ['"']) (("<").toList) = false := by
    simp only [pyStartswith, List.isPrefixOf, Bool.and_true]
    decide
  have hsdq : pyStartswith ('\'' :: s ++ ['\'']) (("\"").toList) = false := by
    simp only [pyStartswith, List.isPrefixOf, Bool.and_true]
    decide
  have hssq : pyStartswith ('\'' :: s ++ ['\'']) (("'").toList) = true := by
    simp only [pyStartswith, List.isPrefixOf, Bool.and_true]
    decide
  have hddq : pyStartswith ('"' :: s ++ ['"']) (("\"").toList) = true := by
    simp only [pyStartswith, List.isPrefixOf, Bool.and_true]
    decide
  refine ⟨?_, ?_, ?_, ?_⟩
  · simp only [classifyInfo, hslt, hsdq, hssq, hesq, Bool.false_and, Bool.true_and,
      Bool.and_false, Bool.false_or]
    simp [List.dropLast_concat]
  · simp only [classifyInfo, hdlt, hddq, hedq, Bool.false_and, Bool.true_and]
    simp [List.dropLast_concat]
  · have hc := plain_not_mem_quote s hplain
    have hq : (if s.contains '\'' && !s.contains '"' then '"' else '\'') = '\'' := by
      rw [hc.1]
      rfl
    simp only [pyReprStrQ, hq]
    rw [flatten_escape_plain s hplain]
  · intro floatOk
    simp only [_determine_variable_type, hssq, hesq, Bool.true_and]
    simp [List.dropLast_concat]

/-- C4 counterexample: for the double-quoted repr `"hi"`, decode does
strip the quotes (scan classification), but encoding the payload back
yields the single-quoted `'hi'`, not the original double-quoted form —
and the standalone `_determine_variable_type` rejects the
double-quoted form outright (its float fallback fails on it, the
Python `float('"hi"')` raising `ValueError`). -/
theorem decode_roundtrip_counterexample :
    classifyInfo (("\"hi\"").toList) = .strKind (("hi").toList) ∧
    pyReprStrQ (("hi").toList) = (("'hi'").toList) ∧
    pyReprStrQ (("hi").toList) ≠ (("\"hi\"").toList) ∧
    _determine_variable_type (fun _ => false) (("\"hi\"").toList) = .error () :=
  ⟨rfl, rfl, by decide, rfl⟩

/-- C4 witness: the plain payload `hi` decodes from both quoted forms
and re-encodes single-quoted. -/
theorem decode_encode_witness :
    classifyInfo ('\'' :: (("hi").toList) ++ ['\'']) = .strKind (("hi").toList) ∧
    pyReprStrQ (("hi").toList) = '\'' :: (("hi").toList) ++ ['\''] ∧
    _determine_variable_type (fun _ => false) ('\'' :: (("hi").toList) ++ ['\''])
      = .ok (.str (("hi").toList)) :=
  ⟨(decode_encode_spec (("hi").toList) (by decide)).1,
    (decode_encode_spec (("hi").toList) (by decide)).2.2.1,
    (decode_encode_spec (("hi").toList) (by decide)).2.2.2 (fun _ => false)⟩

/-- C2 evaluated at the failing input: a module `microbit` with one
member `temperature` whose fetched repr is the bracketed function
marker. The scan does build a Callable, but line 283
(`member_str = my_path + member`) omits the dot, so the node is bound
to `microbittemperature`, not the dot-joined `microbit.temperature`
the repr probe itself used — and invoking it sends an expression
rooted at the dotless name. -/
theorem scan_callable_path_eval :
    scan_member_of demoExec 2 (("microbit").toList) none
      = .ok [((("_shim_function_temperature").toList),
              .callable (("microbittemperature").toList)),
             ((("temperature").toList),
              .callable (("microbittemperature").toList))]
    ∧ (("microbittemperature").toList) ≠ (("microbit.temperature").toList)
    ∧ shimCall (("microbittemperature").toList) [] []
        = (("microbittemperature()").toList) :=
  ⟨rfl, by decide, rfl⟩

theorem except_bind_ok {ε α β : Type} (a : α) (f : α → Except ε β) :
    ((Except.ok a : Except ε α) >>= f) = f a := rfl

theorem isPrefixOf_append_self (l r : PyStr) : l.isPrefixOf (l ++ r) = true := by
  induction l with
  | nil => simp
  | cons c cs ih => simp [List.isPrefixOf, ih]

theorem skipDigits_append (d : PyStr) (s : Char) (r : PyStr)
    (hd : ∀ c ∈ d, c.isDigit = true) (hs : s.isDigit = false) :
    skipDigits (d ++ s :: r) = .ok (s :: r) := by
  induction d with
  | nil => simp [skipDigits, hs]
  | cons c cs ih =>
    have hc : c.isDigit = true := hd c (by simp)
    simp only [List.cons_append, skipDigits, hc, if_true]
    exact ih (fun x hx => hd x (by simp [hx]))

theorem findIdx_space (tok rest : PyStr) (h : ∀ c ∈ tok, c ≠ ' ') :
    (tok ++ ' ' :: rest).findIdx? (fun c => c = ' ') = some tok.length := by
  induction tok with
  | nil => simp [List.findIdx?_cons]
  | cons c cs ih =>
    have hc : c ≠ ' ' := h c (by simp)
    rw [List.cons_append, List.findIdx?_cons, if_neg (by simp [hc]),
      List.findIdx?_succ, ih (fun x hx => h x (by simp [hx]))]
    simp

/-- C8 (amended): extraction fails with the version-unresolvable
error when the banner marker is absent (and when no space follows the
walked position); but the walk never validates the version fields —
it skips a maximal digit run then one arbitrary character, three
times — so a banner well-formed in the claim's sense yields exactly
the revision token, while many malformed banners are not rejected
(and a banner ending inside a digit run raises `IndexError` instead).
-/
theorem extract_hash_spec :
    (∀ lines : PyStr, pyFindList lines mpMarker = none →
      extractHash lines = .error .versionUnresolvable) ∧
    (∀ (d1 d2 d3 tok rest : PyStr) (s1 s2 s3 : Char),
      (∀ c ∈ d1, c.isDigit = true) → (∀ c ∈ d2, c.isDigit = true) →
      (∀ c ∈ d3, c.isDigit = true) →
      s1.isDigit = false → s2.isDigit = false → s3.isDigit = false →
      (∀ c ∈ tok, c ≠ ' ') →
      extractHash
        (mpMarker ++ (d1 ++ (s1 :: (d2 ++ (s2 :: (d3 ++ (s3 :: (tok ++ (' ' :: rest)))))))))
        = .ok tok) := by
  constructor
  · intro lines h
    simp [extractHash, h]
  · intro d1 d2 d3 tok rest s1 s2 s3 h1 h2 h3 hs1 hs2 hs3 htok
    have hfind :
        pyFindList
          (mpMarker ++ (d1 ++ (s1 :: (d2 ++ (s2 :: (d3 ++ (s3 :: (tok ++ (' ' :: rest)))))))))
          mpMarker = some 0 := by
      simp only [pyFindList]
      rw [if_pos (isPrefixOf_append_self _ _)]
    have hdrop :
        (mpMarker ++ (d1 ++ (s1 :: (d2 ++ (s2 :: (d3 ++ (s3 :: (tok ++ (' ' :: rest))))))))).drop
            (0 + 13)
          = d1 ++ (s1 :: (d2 ++ (s2 :: (d3 ++ (s3 :: (tok ++ (' ' :: rest))))))) := by
      rw [Nat.zero_add, show 13 = mpMarker.length from rfl]
      exact List.drop_left _ _
    simp only [extractHash, hfind]
    rw [hdrop, skipDigits_append d1 s1 _ h1 hs1, except_bind_ok]
    simp only [List.drop_succ_cons, List.drop_zero]
    rw [skipDigits_append d2 s2 _ h2 hs2, except_bind_ok]
    simp only [List.drop_succ_cons, List.drop_zero]
    rw [skipDigits_append d3 s3 _ h3 hs3, except_bind_ok]
    simp only [List.drop_succ_cons, List.drop_zero]
    rw [findIdx_space tok rest htok]
    simp [List.take_left]

/-- C8 counterexample: the banner `MicroPython vabc def` has no
three-field numeric version, yet extraction succeeds — with the empty
identity — instead of failing with the version-unresolvable error. -/
theorem extract_hash_counterexample :
    extractHash (("MicroPython vabc def").toList) = .ok []
    ∧ extractHash (("MicroPython vabc def").toList) ≠ .error .versionUnresolvable :=
  ⟨rfl, fun h => Except.noConfusion h⟩

/-- C8 witness: the real banner shape yields the revision token. -/
theorem extract_hash_witness :
    extractHash
      (mpMarker ++ ((("1").toList) ++ ('.' :: ((("9").toList) ++ ('.' ::
        ((("2").toList) ++ ('-' :: ((("34-gd64154c73").toList) ++
          (' ' :: (("on 2017-09-01").toList))))))))))
      = .ok (("34-gd64154c73").toList) :=
  extract_hash_spec.2 (("1").toList) (("9").toList) (("2").toList)
    (("34-gd64154c73").toList) (("on 2017-09-01").toList) '.' '.' '-'
    (by decide) (by decide) (by decide) (by decide) (by decide) (by decide) (by decide)

/-- C9: any successful fresh scan produces a root mapping whose key
`"ver"` is bound to the build-identity string itself — installed first
into the dict and never overwritten by the module entries — and
wrapper attribute access on `"ver"` therefore returns that string. -/
theorem scan_ver_spec (exec : PyStr → PyStr) (fuel : Nat) (hash : PyStr) :
    ∀ cache, scan_modules exec fuel hash = .ok cache →
      getAttr cache (("ver").toList) = some (.str hash) ∧
      wrapperGetattr cache (("ver").toList) = .ok (.str hash) := by
  intro cache h
  unfold scan_modules at h
  cases h04 : execModel exec (("\x04").toList) with
  | error f =>
    rw [h04] at h
    simp [Bind.bind, Except.bind] at h
  | ok s04 =>
    rw [h04] at h
    rw [show ∀ g : PyStr → Except RemoteFault (List (PyStr × ShimVal)),
        ((Except.ok s04 : Except RemoteFault PyStr) >>= g) = g s04 from fun g => rfl] at h
    simp only [_module_list, List.foldlM] at h
    cases him : execModel exec ((("import ").toList) ++ (("microbit").toList)) with
    | error f =>
      rw [him] at h
      simp only [Bind.bind, Except.bind, pure, Except.pure] at h
      cases h
      exact ⟨rfl, rfl⟩
    | ok simp0 =>
      rw [him] at h
      simp only [Bind.bind, Except.bind, pure, Except.pure] at h
      cases hscan : scan_member_of exec fuel (("microbit").toList) none with
      | error f =>
        rw [hscan] at h
        cases h
      | ok node =>
        rw [hscan] at h
        cases h
        constructor
        · rfl
        · rfl

/-- C9 witness: scanning an all-silent device with identity `abc123`
yields a root mapping serving `"ver" = "abc123"`. -/
theorem scan_ver_witness :
    getAttr [((("ver").toList), ShimVal.str (("abc123").toList)),
             ((("microbit").toList), ShimVal.cls [])] (("ver").toList)
      = some (.str (("abc123").toList))
    ∧ wrapperGetattr [((("ver").toList), ShimVal.str (("abc123").toList)),
             ((("microbit").toList), ShimVal.cls [])] (("ver").toList)
      = .ok (.str (("abc123").toList)) :=
  scan_ver_spec silentExec 1 (("abc123").toList)
    [((("ver").toList), ShimVal.str (("abc123").toList)),
     ((("microbit").toList), ShimVal.cls [])] rfl

/-- C7: once the live identity `hash` is extracted, a persisted record
whose stored `"ver"` equals `hash` is returned unchanged with no scan
and nothing re-persisted; with a differing or missing/invalid record,
`load` performs the fresh scan, returns the rebuilt record and
persists it; and any no-scan result is exactly the stored record with
a matching stored identity — a tree built for one identity is never
served under another. -/
theorem load_cache_spec (bootText : PyStr)
    (store : Option (List (PyStr × ShimVal))) (exec : PyStr → PyStr)
    (fuel : Nat) (hash : PyStr)
    (hx : extractHash bootText = .ok hash) :
    (∀ cache, store = some cache → cacheHitB cache hash = true →
      load_ubit_module_cache bootText store exec fuel = .ok ⟨cache, false, none⟩) ∧
    ((match store with
      | some cache => cacheHitB cache hash = false
      | none => True) →
      load_ubit_module_cache bootText store exec fuel =
        (match scan_modules exec fuel hash with
          | .ok c => .ok ⟨c, true, some c⟩
          | .error f => .error (.fault f))) ∧
    (∀ m s p, load_ubit_module_cache bootText store exec fuel = .ok ⟨m, s, p⟩ →
      s = false →
      store = some m ∧ cacheHitB m hash = true ∧ p = none) := by
  have hmap : (extractHash bootText).mapError (fun e =>
      match e with
      | ExtractErr.versionUnresolvable => LoadErr.versionUnresolvable
      | ExtractErr.indexError => LoadErr.indexError) = .ok hash := by
    rw [hx]
    rfl
  have hload : load_ubit_module_cache bootText store exec fuel =
      (match store with
        | some cache =>
          if cacheHitB cache hash then .ok ⟨cache, false, none⟩
          else
            (match scan_modules exec fuel hash with
              | .ok c => .ok ⟨c, true, some c⟩
              | .error f => .error (.fault f))
        | none =>
          (match scan_modules exec fuel hash with
            | .ok c => .ok ⟨c, true, some c⟩
            | .error f => .error (.fault f))) := by
    unfold load_ubit_module_cache
    rw [hmap]
    simp only [except_bind_ok]
    cases store with
    | none =>
      cases hscan : scan_modules exec fuel hash with
      | ok c => rfl
      | error f => rfl
    | some cache =>
      by_cases hh : cacheHitB cache hash = true
      · simp [hh]
        rfl
      · simp only [Bool.not_eq_true] at hh
        simp only [hh, Bool.false_eq_true, if_false]
        cases hscan : scan_modules exec fuel hash with
        | ok c => rfl
        | error f => rfl
  refine ⟨?_, ?_, ?_⟩
  · intro cache hst hhit
    rw [hload, hst]
    simp [hhit]
  · intro hmiss
    rw [hload]
    cases store with
    | none => rfl
    | some cache => simp [hmiss]
  · intro m s p h hs
    rw [hload] at h
    cases store with
    | none =>
      cases hscan : scan_modules exec fuel hash with
      | ok c =>
        rw [hscan] at h
        simp only [Except.ok.injEq, LoadResult.mk.injEq] at h
        rw [hs] at h
        exact absurd h.2.1.symm (by decide)
      | error f =>
        rw [hscan] at h
        cases h
    | some cache =>
      by_cases hh : cacheHitB cache hash = true
      · simp only [hh, if_true] at h
        simp only [Except.ok.injEq, LoadResult.mk.injEq] at h
        refine ⟨?_, ?_, ?_⟩
        · rw [← h.1]
        · rw [← h.1]
          exact hh
        · rw [← h.2.2]
      · simp only [Bool.not_eq_true] at hh
        simp only [hh, Bool.false_eq_true, if_false] at h
        cases hscan : scan_modules exec fuel hash with
        | ok c =>
          rw [hscan] at h
          simp only [Except.ok.injEq, LoadResult.mk.injEq] at h
          rw [hs] at h
          exact absurd h.2.1.symm (by decide)
        | error f =>
          rw [hscan] at h
          cases h

/-- C7 witness: a stored record with identity `34-gd64154c73` matching
the banner's revision token is served unchanged, with no scan and no
re-persist. -/
theorem load_cache_witness :
    load_ubit_module_cache
      (("MicroPython v1.9.2-34-gd64154c73 on 2017-09-01").toList)
      (some [((("ver").toList), ShimVal.str (("34-gd64154c73").toList))])
      silentExec 1
      = .ok ⟨[((("ver").toList), ShimVal.str (("34-gd64154c73").toList))], false, none⟩ :=
  (load_cache_spec (("MicroPython v1.9.2-34-gd64154c73 on 2017-09-01").toList)
      (some [((("ver").toList), ShimVal.str (("34-gd64154c73").toList))])
      silentExec 1 (("34-gd64154c73").toList) rfl).1
    [((("ver").toList), ShimVal.str (("34-gd64154c73").toList))] rfl rfl
